import Mathlib

/-!
Verification of the multi-package-biocontainers core: the specification
parser (`MulledImageNameGenerator.parse_targets`), the mulled version-2
image-name generator (`MulledImageNameGenerator.generate_image_name`) and
the registry existence check (`MulledImageNameGenerator.image_exists`).

The parser and the two class methods are embedded from `src/src/mulled.py`.
The hashing back end (`galaxy.tool_util.deps.mulled.util.build_target` /
`v2_image_name`), the PEP 440 version validator (`packaging.version.Version`)
and the HTTP layer (`requests`) are external libraries that are not part of
the repository source; they are modelled from the specification, with the
hash buffers pinned by the known-vector fixtures of `src/tests/test_mulled.py`.
-/

deriving instance DecidableEq for Except

/-! ## Bytes and characters -/

/-- UTF-8 encoding of a single Unicode code point, as a list of byte values. -/
def charUtf8 (c : Char) : List Nat :=
  let n := c.toNat
  if n < 128 then [n]
  else if n < 2048 then [192 + n / 64, 128 + n % 64]
  else if n < 65536 then [224 + n / 4096, 128 + (n / 64) % 64, 128 + n % 64]
  else [240 + n / 262144, 128 + (n / 4096) % 64, 128 + (n / 64) % 64, 128 + n % 64]

/-- UTF-8 encoding of a string (Python `str.encode()`), as a list of byte values. -/
def utf8Bytes (s : String) : List Nat :=
  s.data.flatMap charUtf8

/-- ASCII whitespace characters recognised by Python `str.strip()` and `\s`
for the ASCII inputs handled here. -/
def wsChar (c : Char) : Bool :=
  c == ' ' || c == '\t' || c == '\n' || c == '\r' || c == '\x0b' || c == '\x0c'

/-- Drop leading whitespace characters. -/
def dropLeadingWs : List Char → List Char
  | [] => []
  | c :: rest => if wsChar c then dropLeadingWs rest else c :: rest

/-- Python `str.strip()`: remove leading and trailing whitespace. -/
def pyStrip (s : String) : String :=
  String.mk ((dropLeadingWs (dropLeadingWs s.data).reverse).reverse)

/-- Python `"\n".join(strings)`. -/
def joinNl : List String → String
  | [] => ""
  | [s] => s
  | s :: rest => s ++ "\n" ++ joinNl rest

/-! ## SHA-1

Executable embedding of the SHA-1 digest used by the mulled version-2
naming convention (`hashlib.sha1`).  Words are `Nat` values reduced
modulo `2 ^ 32`.
-/

/-- `2 ^ 32`, the word modulus of SHA-1. -/
def w32 : Nat := 4294967296

/-- Left rotation of a 32-bit word (argument assumed `< 2 ^ 32`). -/
def rotl (n x : Nat) : Nat :=
  ((x <<< n) % w32) ||| (x >>> (32 - n))

/-- SHA-1 padding: append `0x80`, zero bytes up to 56 mod 64, then the
message bit length as eight big-endian bytes. -/
def sha1Pad (msg : List Nat) : List Nat :=
  let len := msg.length
  let bitLen := len * 8
  let zeros := (119 - (len % 64)) % 64
  msg ++ 128 :: List.replicate zeros 0 ++
    [(bitLen >>> 56) % 256, (bitLen >>> 48) % 256, (bitLen >>> 40) % 256,
     (bitLen >>> 32) % 256, (bitLen >>> 24) % 256, (bitLen >>> 16) % 256,
     (bitLen >>> 8) % 256, bitLen % 256]

/-- Group a byte list into big-endian 32-bit words. -/
def bytesToWords : List Nat → List Nat
  | b0 :: b1 :: b2 :: b3 :: rest =>
      (((b0 * 256 + b1) * 256 + b2) * 256 + b3) :: bytesToWords rest
  | _ => []

/-- Split a list into chunks of 64 bytes; the fuel bounds the recursion. -/
def chunks64 : Nat → List Nat → List (List Nat)
  | 0, _ => []
  | _, [] => []
  | fuel + 1, l => l.take 64 :: chunks64 fuel (l.drop 64)

/-- Element lookup with default 0, used by the message-schedule expansion. -/
def nthWord (l : List Nat) (i : Nat) : Nat :=
  l.getD i 0

/-- Expand the 16 message words of a block to the 80-word SHA-1 schedule. -/
def sha1Expand (ws : List Nat) (i : Nat) : Nat → List Nat
  | 0 => ws
  | fuel + 1 =>
      let w := rotl 1 (nthWord ws (i - 3) ^^^ nthWord ws (i - 8) ^^^
        nthWord ws (i - 14) ^^^ nthWord ws (i - 16))
      sha1Expand (ws ++ [w]) (i + 1) fuel

/-- The running SHA-1 state: five 32-bit words. -/
structure Sha1State where
  h0 : Nat
  h1 : Nat
  h2 : Nat
  h3 : Nat
  h4 : Nat

/-- One SHA-1 compression round at index `i` with schedule word `w`. -/
def sha1Round (i w : Nat) (st : Sha1State) : Sha1State :=
  let a := st.h0
  let b := st.h1
  let c := st.h2
  let d := st.h3
  let e := st.h4
  let nb := 4294967295 - b
  let f :=
    if i < 20 then (b &&& c) ||| (nb &&& d)
    else if i < 40 then b ^^^ c ^^^ d
    else if i < 60 then (b &&& c) ||| (b &&& d) ||| (c &&& d)
    else b ^^^ c ^^^ d
  let k :=
    if i < 20 then 1518500249
    else if i < 40 then 1859775393
    else if i < 60 then 2400959708
    else 3395469782
  let temp := (rotl 5 a + f + e + k + w) % w32
  ⟨temp, a, rotl 30 b, c, d⟩

/-- Run the 80 compression rounds over the schedule words. -/
def sha1Rounds : List Nat → Nat → Sha1State → Sha1State
  | [], _, st => st
  | w :: rest, i, st => sha1Rounds rest (i + 1) (sha1Round i w st)

/-- Process one 64-byte block, updating the running state. -/
def sha1Block (st : Sha1State) (block : List Nat) : Sha1State :=
  let ws := sha1Expand (bytesToWords block) 16 64
  let r := sha1Rounds ws 0 st
  ⟨(st.h0 + r.h0) % w32, (st.h1 + r.h1) % w32, (st.h2 + r.h2) % w32,
   (st.h3 + r.h3) % w32, (st.h4 + r.h4) % w32⟩

/-- The SHA-1 initialisation vector. -/
def sha1Init : Sha1State :=
  ⟨1732584193, 4023233417, 2562383102, 271733878, 3285377520⟩

/-- The final SHA-1 state for a byte message. -/
def sha1Final (msg : List Nat) : Sha1State :=
  let padded := sha1Pad msg
  (chunks64 padded.length padded).foldl sha1Block sha1Init

/-- The sixteen lowercase hexadecimal digit characters. -/
def hexDigits : List Char :=
  "0123456789abcdef".data

/-- Lowercase hexadecimal digit for a nibble value. -/
def hexDigit (n : Nat) : Char :=
  hexDigits.getD (n % 16) '0'

/-- Eight lowercase hex characters of one 32-bit word, most significant first. -/
def hexWord (w : Nat) : List Char :=
  [hexDigit (w >>> 28), hexDigit (w >>> 24), hexDigit (w >>> 20),
   hexDigit (w >>> 16), hexDigit (w >>> 12), hexDigit (w >>> 8),
   hexDigit (w >>> 4), hexDigit w]

/-- `hashlib.sha1(msg).hexdigest()`: the 40-character lowercase hex digest. -/
def sha1hex (msg : List Nat) : String :=
  let st := sha1Final msg
  String.mk (hexWord st.h0 ++ hexWord st.h1 ++ hexWord st.h2 ++
    hexWord st.h3 ++ hexWord st.h4)

/-! ## Lexicographic ordering of targets

Python `sorted(targets, key=...)` orders the (name, version) pairs; string
comparison is lexicographic on code points.
-/

/-- Three-way lexicographic comparison of character lists by code point. -/
def clCmp : List Char → List Char → Ordering
  | [], [] => .eq
  | [], _ :: _ => .lt
  | _ :: _, [] => .gt
  | a :: as, b :: bs =>
      if a.toNat < b.toNat then .lt
      else if b.toNat < a.toNat then .gt
      else clCmp as bs

/-- Boolean lexicographic less-or-equal on (name, version) pairs: compare
names first, break ties on the version string. -/
def pairLeB (x y : String × String) : Bool :=
  match clCmp x.1.data y.1.data with
  | .lt => true
  | .gt => false
  | .eq => clCmp x.2.data y.2.data != Ordering.gt

/-- The sorting relation on targets induced by `pairLeB`. -/
def rPair (x y : String × String) : Prop :=
  pairLeB x y = true

instance : DecidableRel rPair := fun x y =>
  inferInstanceAs (Decidable (pairLeB x y = true))

/-- Targets in canonical order: lexicographic by name, then version. -/
def sortTargets (targets : List (String × String)) : List (String × String) :=
  List.insertionSort rPair targets

/-! ## Decimal rendering of the build number (Python `str` on an `int ≥ 0`) -/

/-- Decimal digit character for a value reduced modulo 10. -/
def decDigitChar (d : Nat) : Char :=
  "0123456789".data.getD (d % 10) '0'

/-- Accumulate the decimal digits of `n` in front of `acc`; the fuel bounds
the recursion and is sufficient whenever `n ≤ fuel`. -/
def decimalAux : Nat → Nat → List Char → List Char
  | 0, _, acc => acc
  | fuel + 1, n, acc =>
      if n = 0 then acc
      else decimalAux fuel (n / 10) (decDigitChar (n % 10) :: acc)

/-- The decimal digit string of `n` (most significant digit first, empty for 0). -/
def decDigits (n : Nat) : List Char :=
  decimalAux n n []

/-- Python `str(n)` for a natural number. -/
def decimalRepr (n : Nat) : String :=
  if n = 0 then "0" else String.mk (decDigits n)

/-- Read a digit string back as a natural number (base 10, ASCII digits). -/
def readDecimal (l : List Char) : Nat :=
  l.foldl (fun a c => a * 10 + (c.toNat - 48)) 0

/-! ## The mulled version-2 image name

`MulledImageNameGenerator.generate_image_name` (src/src/mulled.py, lines
83-107) delegates to `galaxy.tool_util.deps.mulled.util.build_target` and
`v2_image_name`, which are not part of the repository source.
-/

/-- Error raised when image-name generation is requested with zero targets. -/
inductive MulledError where
  | emptyTargetSet
deriving DecidableEq

/-- Modelled from the spec: `galaxy.tool_util.deps.mulled.util.build_target`
is not under src/.  The Target of one (name, version) pair is the pair of
its two components (spec section 3), consumed by the hash computation. -/
def build_target (name version : String) : String × String :=
  (name, version)

/-- The package-set hash: SHA-1 over the newline-joined names of the targets
in canonical order, as pinned by the known-vector fixtures of
src/tests/test_mulled.py. -/
def packageHash (targets : List (String × String)) : String :=
  sha1hex (utf8Bytes (joinNl ((sortTargets targets).map Prod.fst)))

/-- The version hash: SHA-1 over the newline-joined version strings of the
targets in canonical order, as pinned by the known-vector fixtures of
src/tests/test_mulled.py. -/
def versionHash (targets : List (String × String)) : String :=
  sha1hex (utf8Bytes (joinNl ((sortTargets targets).map Prod.snd)))

/-- Modelled from the spec: `galaxy.tool_util.deps.mulled.util.v2_image_name`
is not under src/.  An empty target set is the `EmptyTargetSet` caller error
(spec sections 4.2 and 7); otherwise the name is
`mulled-v2-<package_hash>:<version_hash>-<build>` or, with a base-image
override, `<override>:<version_hash>-<build>` (spec section 4.2, step 3).
The two hash buffers follow the BioContainers mulled v2 convention that the
spec mandates reproducing bit-for-bit, verified against the fixture values
of spec section 8 and src/tests/test_mulled.py: both digests are SHA-1, the
package-set hash over the newline-joined sorted names and the version hash
over the newline-joined version strings in the same target order. -/
def v2_image_name (targets : List (String × String)) (name_override : Option String)
    (image_build : String) : Except MulledError String :=
  if targets.isEmpty then .error .emptyTargetSet
  else
    .ok (match name_override with
      | some base => base ++ ":" ++ versionHash targets ++ "-" ++ image_build
      | none =>
          "mulled-v2-" ++ packageHash targets ++ ":" ++ versionHash targets ++
            "-" ++ image_build)

/-- `MulledImageNameGenerator.generate_image_name` (src/src/mulled.py, lines
83-107): build the targets and delegate to `v2_image_name` with the decimal
rendering of the build number. -/
def generate_image_name (targets : List (String × String))
    (base_image : Option String) (build_number : Nat) : Except MulledError String :=
  v2_image_name (targets.map fun t => build_target t.1 t.2) base_image
    (decimalRepr build_number)

/-- The version hash as literally worded by spec section 4.2, step 2: SHA-1
over the sorted list of full target strings (`name=version`, the canonical
Target format of spec section 3), newline-joined.  Stated only to compare
with `versionHash`, which the fixtures pin to version strings alone. -/
def versionHashOverFullTargets (targets : List (String × String)) : String :=
  sha1hex (utf8Bytes (joinNl
    (List.insertionSort (fun a b : String => clCmp a.data b.data ≠ .gt)
      (targets.map fun t => t.1 ++ "=" ++ t.2))))

/-! ## PEP 440 version validation

`packaging.version.Version` validates against the PEP 440 version grammar
(compiled with `re.VERBOSE | re.IGNORECASE` and surrounding `\s*` anchors).
The matcher below is a nondeterministic embedding of that regular
expression: a matcher maps the remaining input to the list of all possible
remainders, and a string is valid when the whole pattern can consume the
entire input.
-/

/-- A nondeterministic matcher: input suffix to all possible remainders. -/
def Matcher : Type :=
  List Char → List (List Char)

/-- Sequential composition of matchers. -/
def seqM (p q : Matcher) : Matcher :=
  fun l => (p l).flatMap q

/-- Alternation of matchers. -/
def altM (p q : Matcher) : Matcher :=
  fun l => p l ++ q l

/-- Optional matcher (`?`). -/
def optM (p : Matcher) : Matcher :=
  fun l => l :: p l

/-- Match one character satisfying the predicate. -/
def charM (f : Char → Bool) : Matcher :=
  fun l =>
    match l with
    | [] => []
    | c :: rest => if f c then [rest] else []

/-- Match a literal character sequence. -/
def litM (s : List Char) : Matcher :=
  fun l => if s.isPrefixOf l then [l.drop s.length] else []

/-- Match any of the literal alternatives. -/
def altsM (ss : List (List Char)) : Matcher :=
  fun l => ss.flatMap fun s => litM s l

/-- Kleene star (`*`) with explicit fuel; each iteration must consume at
least one character, so fuel equal to the input length is sufficient. -/
def starM (p : Matcher) : Nat → Matcher
  | 0 => fun l => [l]
  | fuel + 1 => fun l => l :: (p l).flatMap (starM p fuel)

/-- One or more ASCII digits (`[0-9]+`), all possible split points. -/
def digitsM : Matcher
  | [] => []
  | c :: rest => if c.isDigit then rest :: digitsM rest else []

/-- One or more lowercase alphanumerics (`[a-z0-9]+`), all split points. -/
def alnumsM : Matcher
  | [] => []
  | c :: rest =>
      if c.isDigit || (97 ≤ c.toNat && c.toNat ≤ 122) then rest :: alnumsM rest
      else []

/-- The optional separator `[-_\.]?` of the PEP 440 grammar. -/
def sepM : Matcher :=
  optM (charM fun c => c == '-' || c == '_' || c == '.')

/-- The pre-release group `([-_\.]?(alpha|a|b|beta|c|pre|preview|rc)[-_\.]?[0-9]*?)`. -/
def preM : Matcher :=
  seqM sepM (seqM (altsM [['a', 'l', 'p', 'h', 'a'], ['a'], ['b'],
    ['b', 'e', 't', 'a'], ['c'], ['p', 'r', 'e'],
    ['p', 'r', 'e', 'v', 'i', 'e', 'w'], ['r', 'c']])
    (seqM sepM (optM digitsM)))

/-- The post-release group `((-[0-9]+)|([-_\.]?(post|rev|r)[-_\.]?[0-9]*?))`. -/
def postM : Matcher :=
  altM (seqM (charM (· == '-')) digitsM)
    (seqM sepM (seqM (altsM [['p', 'o', 's', 't'], ['r', 'e', 'v'], ['r']])
      (seqM sepM (optM digitsM))))

/-- The dev-release group `([-_\.]?dev[-_\.]?[0-9]*?)`. -/
def devM : Matcher :=
  seqM sepM (seqM (litM ['d', 'e', 'v']) (seqM sepM (optM digitsM)))

/-- The local-version group `(\+[a-z0-9]+([-_\.][a-z0-9]+)*)`; the fuel
bounds the inner star. -/
def localVerM (fuel : Nat) : Matcher :=
  seqM (charM (· == '+'))
    (seqM alnumsM
      (starM (seqM (charM fun c => c == '-' || c == '_' || c == '.') alnumsM) fuel))

/-- The core PEP 440 pattern: optional `v`, optional epoch, release
segment, then optional pre-, post-, dev- and local segments. -/
def pep440CoreM (fuel : Nat) : Matcher :=
  seqM (optM (charM (· == 'v')))
    (seqM (optM (seqM digitsM (charM (· == '!'))))
      (seqM (seqM digitsM (starM (seqM (charM (· == '.')) digitsM) fuel))
        (seqM (optM preM)
          (seqM (optM postM)
            (seqM (optM devM)
              (optM (localVerM fuel)))))))

/-- ASCII lowercase conversion, modelling `re.IGNORECASE` for the ASCII
letters the PEP 440 pattern mentions. -/
def asciiLower (c : Char) : Char :=
  if 65 ≤ c.toNat && c.toNat ≤ 90 then Char.ofNat (c.toNat + 32) else c

/-- Modelled from the spec: `packaging.version.Version` is not under src/.
A string is a valid PEP 440 version identifier when the full anchored
pattern `\s*` + VERSION_PATTERN + `\s*` (case-insensitive) consumes it
entirely (spec sections 4.1 and 6). -/
def isValidPEP440 (s : String) : Bool :=
  let l := s.data.map asciiLower
  let n := l.length
  ((seqM (starM (charM wsChar) n)
    (seqM (pep440CoreM n) (starM (charM wsChar) n))) l).any List.isEmpty

/-! ## The specification parser

`MulledImageNameGenerator.parse_targets` (src/src/mulled.py, lines 52-81).
-/

/-- The two error kinds raised by the parser, carrying the strings that the
source interpolates into the `ValueError` messages. -/
inductive ParseError where
  | malformed (spec : String)
  | invalidVersion (version spec : String)
deriving DecidableEq

/-- The exact `ValueError` message text of src/src/mulled.py. -/
def errorMessage : ParseError → String
  | .malformed spec =>
      "The specification '" ++ spec ++
        "' does not have the expected format <tool==version> or <tool=version>."
  | .invalidVersion version spec =>
      "Not a PEP440 version spec: '" ++ version ++ "' in '" ++ spec ++ "'"

/-- `re.split(r"==?", spec, maxsplit=1)` on the character list: split at the
first `=`, consuming `==` when the next character is also `=`; `none` when
the string contains no `=` (the split yields a single part). -/
def splitOnFirstEq : List Char → Option (List Char × List Char)
  | [] => none
  | c :: rest =>
      if c = '=' then
        match rest with
        | [] => some ([], [])
        | d :: ds => if d = '=' then some ([], ds) else some ([], d :: ds)
      else (splitOnFirstEq rest).map fun p => (c :: p.1, p.2)

/-- The tool/version split of one specification string. -/
def splitOnceEq (s : String) : Option (String × String) :=
  (splitOnFirstEq s.data).map fun p => (String.mk p.1, String.mk p.2)

/-- One iteration of the `parse_targets` loop: split the specification,
validate the version, and return the stripped pair. -/
def parseOne (spec : String) : Except ParseError (String × String) :=
  match splitOnceEq spec with
  | none => .error (.malformed spec)
  | some (tool, version) =>
      if isValidPEP440 version then .ok (pyStrip tool, pyStrip version)
      else .error (.invalidVersion version spec)

/-- `MulledImageNameGenerator.parse_targets` (src/src/mulled.py, lines
52-81): parse every specification string in order; the first failure aborts
the whole call. -/
def parse_targets : List String → Except ParseError (List (String × String))
  | [] => .ok []
  | spec :: rest =>
      match parseOne spec with
      | .error e => .error e
      | .ok p =>
          match parse_targets rest with
          | .error e => .error e
          | .ok ps => .ok (p :: ps)

/-! ## The registry existence check

`MulledImageNameGenerator.image_exists` (src/src/mulled.py, lines 109-135).
The HTTP layer is abstracted as the outcome of the single GET request.
-/

/-- Modelled from the spec: the `requests` HTTP layer is not under src/.  A
transport-level failure of the GET request, which `requests.get` surfaces
as an exception rather than a response (spec sections 4.2 and 7,
`RegistryUnavailable`). -/
inductive TransportError where
  | connectionFailure
deriving DecidableEq

/-- `MulledImageNameGenerator.image_exists` (src/src/mulled.py, lines
109-135) as a function of the GET outcome: a response yields `true` exactly
for status code 200; the source installs no exception handler, so a
transport error propagates to the caller. -/
def image_exists (response : Except TransportError Nat) : Except TransportError Bool :=
  match response with
  | .error e => .error e
  | .ok code => .ok (code == 200)

/-! ## Order properties of the canonical target ordering -/

/-- `Char.toNat` is injective. -/
theorem char_toNat_inj {a b : Char} (h : a.toNat = b.toNat) : a = b := by
  have ha := Char.ofNat_toNat a
  rw [h, Char.ofNat_toNat] at ha
  exact ha.symm

/-- `clCmp` returns `eq` exactly on equal lists. -/
theorem clCmp_eq_iff : ∀ a b : List Char, clCmp a b = .eq ↔ a = b
  | [], [] => by simp [clCmp]
  | [], _ :: _ => by simp [clCmp]
  | _ :: _, [] => by simp [clCmp]
  | a :: as, b :: bs => by
    simp only [clCmp]
    by_cases h1 : a.toNat < b.toNat
    · simp only [if_pos h1]
      constructor
      · intro h; exact Ordering.noConfusion h
      · intro h
        obtain ⟨h2, _⟩ := List.cons.inj h
        subst h2; omega
    · by_cases h2 : b.toNat < a.toNat
      · simp only [if_neg h1, if_pos h2]
        constructor
        · intro h; exact Ordering.noConfusion h
        · intro h
          obtain ⟨h3, _⟩ := List.cons.inj h
          subst h3; omega
      · simp only [if_neg h1, if_neg h2]
        have hab : a = b := char_toNat_inj (by omega)
        subst hab
        rw [clCmp_eq_iff as bs]
        constructor
        · intro h; rw [h]
        · intro h
          obtain ⟨_, h4⟩ := List.cons.inj h
          exact h4

/-- `clCmp` on equal lists. -/
theorem clCmp_self (a : List Char) : clCmp a a = .eq :=
  (clCmp_eq_iff a a).mpr rfl

/-- Swapping the arguments of `clCmp` exchanges `gt` and `lt`. -/
theorem clCmp_gt_iff : ∀ a b : List Char, clCmp a b = .gt ↔ clCmp b a = .lt
  | [], [] => by simp [clCmp]
  | [], _ :: _ => by simp [clCmp]
  | _ :: _, [] => by simp [clCmp]
  | a :: as, b :: bs => by
    simp only [clCmp]
    by_cases h1 : a.toNat < b.toNat
    · simp only [if_pos h1, if_neg (show ¬b.toNat < a.toNat by omega)]
      simp
    · by_cases h2 : b.toNat < a.toNat
      · simp only [if_neg h1, if_pos h2]
      · simp only [if_neg h1, if_neg h2]
        exact clCmp_gt_iff as bs

/-- Strict transitivity of the lexicographic comparison. -/
theorem clCmp_lt_trans : ∀ a b c : List Char,
    clCmp a b = .lt → clCmp b c = .lt → clCmp a c = .lt
  | [], [], _ => by
    intro h _; exact absurd h (by simp [clCmp])
  | [], _ :: _, [] => by
    intro _ h; exact absurd h (by simp [clCmp])
  | [], _ :: _, _ :: _ => by
    intro _ _; simp [clCmp]
  | _ :: _, [], _ => by
    intro h _; exact absurd h (by simp [clCmp])
  | _ :: _, _ :: _, [] => by
    intro _ h; exact absurd h (by simp [clCmp])
  | a :: as, b :: bs, c :: cs => by
    intro h1 h2
    simp only [clCmp] at h1 h2 ⊢
    by_cases hab : a.toNat < b.toNat <;> by_cases hbc : b.toNat < c.toNat
    · rw [if_pos (show a.toNat < c.toNat by omega)]
    · rw [if_neg hbc] at h2
      by_cases hcb : c.toNat < b.toNat
      · rw [if_pos hcb] at h2; exact Ordering.noConfusion h2
      · rw [if_pos (show a.toNat < c.toNat by omega)]
    · rw [if_neg hab] at h1
      by_cases hba : b.toNat < a.toNat
      · rw [if_pos hba] at h1; exact Ordering.noConfusion h1
      · rw [if_pos (show a.toNat < c.toNat by omega)]
    · rw [if_neg hab] at h1
      rw [if_neg hbc] at h2
      by_cases hba : b.toNat < a.toNat
      · rw [if_pos hba] at h1; exact Ordering.noConfusion h1
      · by_cases hcb : c.toNat < b.toNat
        · rw [if_pos hcb] at h2; exact Ordering.noConfusion h2
        · rw [if_neg hba] at h1
          rw [if_neg hcb] at h2
          rw [if_neg (show ¬a.toNat < c.toNat by omega),
            if_neg (show ¬c.toNat < a.toNat by omega)]
          exact clCmp_lt_trans as bs cs h1 h2

/-- Transitivity of the non-strict comparison. -/
theorem clCmp_le_trans {a b c : List Char} (h1 : clCmp a b ≠ .gt)
    (h2 : clCmp b c ≠ .gt) : clCmp a c ≠ .gt := by
  cases hab : clCmp a b with
  | gt => exact absurd hab h1
  | eq =>
    obtain rfl := (clCmp_eq_iff a b).mp hab
    exact h2
  | lt =>
    cases hbc : clCmp b c with
    | gt => exact absurd hbc h2
    | eq =>
      obtain rfl := (clCmp_eq_iff b c).mp hbc
      rw [hab]; simp
    | lt =>
      rw [clCmp_lt_trans a b c hab hbc]; simp

/-- Propositional characterisation of the Boolean pair comparison. -/
theorem rPair_iff (x y : String × String) :
    rPair x y ↔ (clCmp x.1.data y.1.data = .lt ∨
      (clCmp x.1.data y.1.data = .eq ∧ clCmp x.2.data y.2.data ≠ .gt)) := by
  unfold rPair pairLeB
  cases h : clCmp x.1.data y.1.data with
  | lt => simp
  | gt => simp
  | eq =>
    cases h2 : clCmp x.2.data y.2.data <;> simp [h2] <;> decide

/-- The target ordering is total. -/
theorem rPair_total (x y : String × String) : rPair x y ∨ rPair y x := by
  rw [rPair_iff, rPair_iff]
  cases h : clCmp x.1.data y.1.data with
  | lt => exact Or.inl (Or.inl rfl)
  | gt => exact Or.inr (Or.inl ((clCmp_gt_iff _ _).mp h))
  | eq =>
    have hd : x.1.data = y.1.data := (clCmp_eq_iff _ _).mp h
    have h' : clCmp y.1.data x.1.data = .eq := by rw [← hd]; exact clCmp_self _
    cases h2 : clCmp x.2.data y.2.data with
    | lt => exact Or.inl (Or.inr ⟨rfl, by decide⟩)
    | eq => exact Or.inl (Or.inr ⟨rfl, by decide⟩)
    | gt =>
      refine Or.inr (Or.inr ⟨h', ?_⟩)
      rw [(clCmp_gt_iff _ _).mp h2]
      decide

/-- The target ordering is transitive. -/
theorem rPair_trans (x y z : String × String) (h1 : rPair x y) (h2 : rPair y z) :
    rPair x z := by
  rw [rPair_iff] at h1 h2 ⊢
  rcases h1 with h1 | ⟨h1e, h1s⟩ <;> rcases h2 with h2 | ⟨h2e, h2s⟩
  · exact Or.inl (clCmp_lt_trans _ _ _ h1 h2)
  · have e2 : y.1.data = z.1.data := (clCmp_eq_iff _ _).mp h2e
    exact Or.inl (by rw [← e2]; exact h1)
  · have e1 : x.1.data = y.1.data := (clCmp_eq_iff _ _).mp h1e
    exact Or.inl (by rw [e1]; exact h2)
  · have e1 : x.1.data = y.1.data := (clCmp_eq_iff _ _).mp h1e
    have e2 : y.1.data = z.1.data := (clCmp_eq_iff _ _).mp h2e
    refine Or.inr ⟨by rw [e1, e2]; exact clCmp_self _, clCmp_le_trans h1s h2s⟩

/-- The target ordering is antisymmetric. -/
theorem rPair_antisymm (x y : String × String) (h1 : rPair x y) (h2 : rPair y x) :
    x = y := by
  rw [rPair_iff] at h1 h2
  rcases h1 with h1 | ⟨h1e, h1s⟩
  · rcases h2 with h2 | ⟨h2e, _⟩
    · have hg := (clCmp_gt_iff y.1.data x.1.data).mpr h1
      rw [h2] at hg
      exact Ordering.noConfusion hg
    · have hd : y.1.data = x.1.data := (clCmp_eq_iff _ _).mp h2e
      rw [← hd] at h1
      rw [clCmp_self] at h1
      exact Ordering.noConfusion h1
  · rcases h2 with h2 | ⟨_, h2s⟩
    · have hd : x.1.data = y.1.data := (clCmp_eq_iff _ _).mp h1e
      rw [hd] at h2
      rw [clCmp_self] at h2
      exact Ordering.noConfusion h2
    · cases hc : clCmp x.2.data y.2.data with
      | gt => exact absurd hc h1s
      | lt => exact absurd ((clCmp_gt_iff _ _).mpr hc) h2s
      | eq =>
        have e1 : x.1 = y.1 := congrArg String.mk ((clCmp_eq_iff _ _).mp h1e)
        have e2 : x.2 = y.2 := congrArg String.mk ((clCmp_eq_iff _ _).mp hc)
        exact Prod.ext e1 e2

instance : IsTotal (String × String) rPair := ⟨rPair_total⟩

instance : IsTrans (String × String) rPair := ⟨rPair_trans⟩

instance : IsAntisymm (String × String) rPair := ⟨rPair_antisymm⟩

/-- Sorting is invariant under permutation of the input. -/
theorem sortTargets_eq_of_perm {l1 l2 : List (String × String)} (h : l1.Perm l2) :
    sortTargets l1 = sortTargets l2 :=
  List.eq_of_perm_of_sorted
    ((List.perm_insertionSort rPair l1).trans
      (h.trans (List.perm_insertionSort rPair l2).symm))
    (List.sorted_insertionSort rPair l1) (List.sorted_insertionSort rPair l2)

/-! ## Shape of the hex digest -/

/-- Every hex digit character is one of the sixteen digit characters. -/
theorem hexDigit_mem (n : Nat) : hexDigit n ∈ hexDigits := by
  have h : n % 16 < 16 := Nat.mod_lt _ (by norm_num)
  unfold hexDigit
  set m := n % 16 with hm
  interval_cases m <;> decide

/-- Every character of a hex word is a hex digit character. -/
theorem hexWord_mem {c : Char} {w : Nat} (h : c ∈ hexWord w) : c ∈ hexDigits := by
  unfold hexWord at h
  simp only [List.mem_cons, List.not_mem_nil, or_false] at h
  rcases h with rfl | rfl | rfl | rfl | rfl | rfl | rfl | rfl <;> exact hexDigit_mem _

/-- The hex digest always has exactly 40 characters. -/
theorem sha1hex_length (msg : List Nat) : (sha1hex msg).length = 40 := by
  unfold sha1hex hexWord
  simp [String.length]

/-- Every character of the hex digest is a lowercase hex digit. -/
theorem sha1hex_mem (msg : List Nat) {c : Char} (hc : c ∈ (sha1hex msg).data) :
    c ∈ hexDigits := by
  unfold sha1hex at hc
  simp only [List.mem_append] at hc
  rcases hc with (((h | h) | h) | h) | h <;> exact hexWord_mem h

/-! ## Properties of the decimal rendering -/

/-- Rendering the value zero consumes no fuel. -/
theorem decimalAux_zero (fuel : Nat) (acc : List Char) : decimalAux fuel 0 acc = acc := by
  cases fuel <;> simp [decimalAux]

/-- The accumulator is appended behind the digits of `n`. -/
theorem decimalAux_shift (n : Nat) : ∀ fuel acc, n ≤ fuel →
    decimalAux fuel n acc = decDigits n ++ acc := by
  induction n using Nat.strong_induction_on with
  | _ n ih =>
    intro fuel acc hle
    match n, fuel with
    | 0, fuel => simp [decimalAux_zero, decDigits, decimalAux]
    | m + 1, 0 => omega
    | m + 1, f + 1 =>
      have hdiv : (m + 1) / 10 < m + 1 := Nat.div_lt_self (Nat.succ_pos m) (by norm_num)
      have e1 : decimalAux (f + 1) (m + 1) acc =
          decimalAux f ((m + 1) / 10) (decDigitChar ((m + 1) % 10) :: acc) := by
        simp [decimalAux]
      have e3 : decDigits (m + 1) =
          decimalAux m ((m + 1) / 10) [decDigitChar ((m + 1) % 10)] := by
        show decimalAux (m + 1) (m + 1) [] = _
        simp [decimalAux]
      have e2 : decDigits (m + 1) =
          decDigits ((m + 1) / 10) ++ [decDigitChar ((m + 1) % 10)] := by
        rw [e3, ih _ hdiv m _ (by omega)]
      rw [e1, ih _ hdiv f _ (by omega), e2]
      simp

/-- Peeling the least significant digit off a positive number. -/
theorem decDigits_step (m : Nat) :
    decDigits (m + 1) = decDigits ((m + 1) / 10) ++ [decDigitChar ((m + 1) % 10)] := by
  have e3 : decDigits (m + 1) =
      decimalAux m ((m + 1) / 10) [decDigitChar ((m + 1) % 10)] := by
    show decimalAux (m + 1) (m + 1) [] = _
    simp [decimalAux]
  rw [e3, decimalAux_shift _ _ _ (by omega)]

/-- The numeric value of a decimal digit character. -/
theorem decDigitChar_val (d : Nat) : (decDigitChar d).toNat - 48 = d % 10 := by
  have h : d % 10 < 10 := Nat.mod_lt _ (by norm_num)
  unfold decDigitChar
  set m := d % 10 with hm
  interval_cases m <;> decide

/-- Decimal digit characters are ASCII digits. -/
theorem decDigitChar_isDigit (d : Nat) : (decDigitChar d).isDigit = true := by
  have h : d % 10 < 10 := Nat.mod_lt _ (by norm_num)
  unfold decDigitChar
  set m := d % 10 with hm
  interval_cases m <;> decide

/-- Reading the digit string back yields the rendered number. -/
theorem readDecimal_decDigits (n : Nat) : readDecimal (decDigits n) = n := by
  induction n using Nat.strong_induction_on with
  | _ n ih =>
    match n with
    | 0 => rfl
    | m + 1 =>
      have ihv := ih ((m + 1) / 10) (by omega)
      unfold readDecimal at ihv ⊢
      rw [decDigits_step m, List.foldl_append]
      simp only [List.foldl_cons, List.foldl_nil]
      rw [ihv, decDigitChar_val]
      omega

/-- Every character of the digit string is an ASCII digit. -/
theorem decDigits_digits (n : Nat) : ∀ c ∈ decDigits n, c.isDigit = true := by
  induction n using Nat.strong_induction_on with
  | _ n ih =>
    match n with
    | 0 =>
      intro c hc
      rw [show decDigits 0 = [] from rfl] at hc
      exact absurd hc (List.not_mem_nil c)
    | m + 1 =>
      intro c hc
      rw [decDigits_step] at hc
      rcases List.mem_append.mp hc with h | h
      · exact ih _ (by omega) c h
      · rw [List.mem_singleton] at h
        subst h
        exact decDigitChar_isDigit _

/-- The digit string of a positive number is non-empty and never starts
with the character 0. -/
theorem decDigits_head (n : Nat) (hn : n ≠ 0) :
    ∃ c cs, decDigits n = c :: cs ∧ c ≠ '0' := by
  induction n using Nat.strong_induction_on with
  | _ n ih =>
    match n with
    | 0 => exact absurd rfl hn
    | m + 1 =>
      by_cases h10 : (m + 1) / 10 = 0
      · refine ⟨decDigitChar ((m + 1) % 10), [], ?_, ?_⟩
        · rw [decDigits_step, h10]
          rfl
        · have h1 : 1 ≤ (m + 1) % 10 := by omega
          have h2 : (m + 1) % 10 < 10 := by omega
          unfold decDigitChar
          set j := (m + 1) % 10 with hj
          interval_cases j <;> decide
      · obtain ⟨c, cs, hEq, hC⟩ := ih ((m + 1) / 10) (by omega) h10
        refine ⟨c, cs ++ [decDigitChar ((m + 1) % 10)], ?_, hC⟩
        rw [decDigits_step, hEq]
        rfl

/-! ## Generator claims -/

/-- The image name on a non-empty target list without override. -/
theorem generate_cons_none (t : String × String) (ts : List (String × String)) (n : Nat) :
    generate_image_name (t :: ts) none n =
      .ok ("mulled-v2-" ++ packageHash ((t :: ts).map fun x => build_target x.1 x.2) ++ ":" ++
        versionHash ((t :: ts).map fun x => build_target x.1 x.2) ++ "-" ++ decimalRepr n) := rfl

/-- The image name on a non-empty target list with a base-image override. -/
theorem generate_cons_some (t : String × String) (ts : List (String × String))
    (base : String) (n : Nat) :
    generate_image_name (t :: ts) (some base) n =
      .ok (base ++ ":" ++ versionHash ((t :: ts).map fun x => build_target x.1 x.2) ++ "-" ++
        decimalRepr n) := rfl

set_option maxRecDepth 100000 in
/-- C1: with no base image and build number 0, `generate_image_name` reproduces
the three known-vector fixtures of the specification and of
src/tests/test_mulled.py exactly. -/
theorem claim1_known_vectors :
    generate_image_name [("chromap", "0.2.1"), ("samtools", "1.15")] none 0 =
      .ok "mulled-v2-1f09f39f20b1c4ee36581dc81cc323c70e661633:bd74d08a359024829a7aec1638a28607bbcd8a58-0" ∧
    generate_image_name [("pysam", "0.16.0.1"), ("biopython", "1.78")] none 0 =
      .ok "mulled-v2-3a59640f3fe1ed11819984087d31d68600200c3f:185a25ca79923df85b58f42deb48f5ac4481e91f-0" ∧
    generate_image_name [("samclip", "0.4.0"), ("samtools", "1.15")] none 0 =
      .ok "mulled-v2-d057255d4027721f3ab57f6a599a2ae81cb3cbe3:13051b049b6ae536d76031ba94a0b8e78e364815-0" :=
  ⟨rfl, rfl, rfl⟩

/-- C2: for every base-image override and build number, `generate_image_name`
yields the identical output on any permutation of the target sequence. -/
theorem claim2_order_independence (l1 l2 : List (String × String)) (base : Option String)
    (n : Nat) (h : l1.Perm l2) :
    generate_image_name l1 base n = generate_image_name l2 base n := by
  have hm : (l1.map fun t => build_target t.1 t.2).Perm
      (l2.map fun t => build_target t.1 t.2) := h.map _
  have hs : sortTargets (l1.map fun t => build_target t.1 t.2) =
      sortTargets (l2.map fun t => build_target t.1 t.2) := sortTargets_eq_of_perm hm
  have he : (l1.map fun t => build_target t.1 t.2).isEmpty =
      (l2.map fun t => build_target t.1 t.2).isEmpty := by
    cases hc1 : l1.map fun t => build_target t.1 t.2 with
    | nil =>
      rw [hc1] at hm
      rw [hm.symm.eq_nil]
    | cons a as =>
      cases hc2 : l2.map fun t => build_target t.1 t.2 with
      | nil =>
        rw [hc1, hc2] at hm
        exact absurd hm.eq_nil (by simp)
      | cons b bs => rfl
  unfold generate_image_name v2_image_name packageHash versionHash
  rw [hs, he]

/-- C2 witness: the first fixture evaluated on two orderings of the targets. -/
theorem claim2_witness :
    generate_image_name [("samtools", "1.15"), ("chromap", "0.2.1")] none 0 =
      generate_image_name [("chromap", "0.2.1"), ("samtools", "1.15")] none 0 :=
  claim2_order_independence [("samtools", "1.15"), ("chromap", "0.2.1")]
    [("chromap", "0.2.1"), ("samtools", "1.15")] none 0 (List.Perm.swap _ _ _)

/-- C3: without override, the output on a non-empty target list is
`mulled-v2-<package_hash>:<version_hash>-<build_number>` with two 40-character
lowercase hex digests and the decimal rendering of the build number without
leading zeros (the literal 0 for value 0). -/
theorem claim3_output_format (targets : List (String × String)) (h : targets ≠ [])
    (n : Nat) :
    ∃ ph vh : String,
      generate_image_name targets none n =
        .ok ("mulled-v2-" ++ ph ++ ":" ++ vh ++ "-" ++ decimalRepr n) ∧
      ph.length = 40 ∧ vh.length = 40 ∧
      (∀ c ∈ ph.data, c ∈ hexDigits) ∧ (∀ c ∈ vh.data, c ∈ hexDigits) ∧
      (∀ c ∈ (decimalRepr n).data, c.isDigit = true) ∧
      readDecimal (decimalRepr n).data = n ∧
      (n = 0 → decimalRepr n = "0") ∧
      (n ≠ 0 → ∀ c0 cs, (decimalRepr n).data = c0 :: cs → c0 ≠ '0') := by
  cases targets with
  | nil => exact absurd rfl h
  | cons t ts =>
    have hrepr : n ≠ 0 → decimalRepr n = String.mk (decDigits n) := by
      intro h0
      unfold decimalRepr
      rw [if_neg h0]
    refine ⟨packageHash ((t :: ts).map fun x => build_target x.1 x.2),
      versionHash ((t :: ts).map fun x => build_target x.1 x.2),
      ?_, ?_, ?_, ?_, ?_, ?_, ?_, ?_, ?_⟩
    · exact generate_cons_none t ts n
    · exact sha1hex_length _
    · exact sha1hex_length _
    · exact fun c hc => sha1hex_mem _ hc
    · exact fun c hc => sha1hex_mem _ hc
    · intro c hc
      by_cases h0 : n = 0
      · subst h0
        rw [show (decimalRepr 0).data = ['0'] from rfl] at hc
        rw [List.mem_singleton] at hc
        subst hc
        decide
      · rw [hrepr h0] at hc
        exact decDigits_digits n c hc
    · by_cases h0 : n = 0
      · subst h0; rfl
      · rw [hrepr h0]
        exact readDecimal_decDigits n
    · intro h0
      rw [h0]
      rfl
    · intro h0 c0 cs hEq
      rw [hrepr h0] at hEq
      obtain ⟨c, cs', hE, hC⟩ := decDigits_head n h0
      rw [hE] at hEq
      obtain ⟨h1, _⟩ := List.cons.inj hEq
      rw [h1] at hC
      exact hC

/-- C3 witness: the shape statement evaluated at a concrete non-empty input. -/
theorem claim3_witness :
    ([("samtools", "1.15")] : List (String × String)) ≠ [] ∧
    (∃ ph vh : String,
      generate_image_name [("samtools", "1.15")] none 7 =
        .ok ("mulled-v2-" ++ ph ++ ":" ++ vh ++ "-" ++ decimalRepr 7) ∧
      ph.length = 40 ∧ vh.length = 40 ∧
      (∀ c ∈ ph.data, c ∈ hexDigits) ∧ (∀ c ∈ vh.data, c ∈ hexDigits) ∧
      (∀ c ∈ (decimalRepr 7).data, c.isDigit = true) ∧
      readDecimal (decimalRepr 7).data = 7 ∧
      (7 = 0 → decimalRepr 7 = "0") ∧
      (7 ≠ 0 → ∀ c0 cs, (decimalRepr 7).data = c0 :: cs → c0 ≠ '0')) :=
  ⟨by decide, claim3_output_format [("samtools", "1.15")] (by decide) 7⟩

set_option maxRecDepth 100000 in
/-- C4 counterexample: with a base-image override the tag hash is the SHA-1
of the newline-joined version strings (`bd74...` for the first fixture), not
the SHA-1 of the sorted full `name=version` target strings, which differs
under both a newline join (`4673...`) and a comma join (`d704...`). -/
theorem claim4_counterexample :
    generate_image_name [("chromap", "0.2.1"), ("samtools", "1.15")] (some "mybase") 0 =
      .ok "mybase:bd74d08a359024829a7aec1638a28607bbcd8a58-0" ∧
    versionHashOverFullTargets [("chromap", "0.2.1"), ("samtools", "1.15")] =
      "46732dfb4dd19705bd9bfb225316abb1e127ebdd" ∧
    sha1hex (utf8Bytes "chromap=0.2.1,samtools=1.15") =
      "d704dc713438be88c5d5b51b157f493b35f625a9" ∧
    ("bd74d08a359024829a7aec1638a28607bbcd8a58" : String) ≠
      "46732dfb4dd19705bd9bfb225316abb1e127ebdd" ∧
    ("bd74d08a359024829a7aec1638a28607bbcd8a58" : String) ≠
      "d704dc713438be88c5d5b51b157f493b35f625a9" :=
  ⟨rfl, rfl, rfl, by decide, by decide⟩

/-- C4 (amended): with a base-image override the output is
`<override>:<version_hash>-<build_number>`, where the version hash is the
same one used in the tag of the non-override output (SHA-1 over the
newline-joined version strings of the name-sorted targets). -/
theorem claim4_amended_override (targets : List (String × String)) (h : targets ≠ [])
    (base : String) (n : Nat) :
    generate_image_name targets (some base) n =
      .ok (base ++ ":" ++ versionHash (targets.map fun t => build_target t.1 t.2) ++
        "-" ++ decimalRepr n) ∧
    generate_image_name targets none n =
      .ok ("mulled-v2-" ++ packageHash (targets.map fun t => build_target t.1 t.2) ++ ":" ++
        versionHash (targets.map fun t => build_target t.1 t.2) ++ "-" ++ decimalRepr n) := by
  cases targets with
  | nil => exact absurd rfl h
  | cons t ts => exact ⟨generate_cons_some t ts base n, generate_cons_none t ts n⟩

/-- C4 witness: the override format evaluated at a concrete input. -/
theorem claim4_witness :
    ([("a", "1.0")] : List (String × String)) ≠ [] ∧
    (generate_image_name [("a", "1.0")] (some "mybase") 3 =
      .ok ("mybase:" ++ versionHash ([("a", "1.0")].map fun t => build_target t.1 t.2) ++
        "-" ++ decimalRepr 3) ∧
    generate_image_name [("a", "1.0")] none 3 =
      .ok ("mulled-v2-" ++ packageHash ([("a", "1.0")].map fun t => build_target t.1 t.2) ++ ":" ++
        versionHash ([("a", "1.0")].map fun t => build_target t.1 t.2) ++ "-" ++ decimalRepr 3)) :=
  ⟨by decide, claim4_amended_override [("a", "1.0")] (by decide) "mybase" 3⟩

/-- C5: requesting an image name for an empty target sequence yields the
`EmptyTargetSet` error and never a string, for every override and build
number. -/
theorem claim5_empty_target_set (base : Option String) (n : Nat) :
    generate_image_name [] base n = .error .emptyTargetSet := rfl

/-! ## Parser claims -/

/-- A string headed by the separator always splits. -/
theorem splitOnFirstEq_eq_cons (rest : List Char) :
    ∃ p, splitOnFirstEq ('=' :: rest) = some p := by
  cases rest with
  | nil => exact ⟨([], []), rfl⟩
  | cons d ds =>
    by_cases hd : d = '='
    · subst hd
      exact ⟨([], ds), by simp [splitOnFirstEq]⟩
    · exact ⟨([], d :: ds), by simp [splitOnFirstEq, hd]⟩

/-- The split fails exactly when the string contains no separator. -/
theorem splitOnFirstEq_none_iff : ∀ l : List Char, splitOnFirstEq l = none ↔ '=' ∉ l
  | [] => by simp [splitOnFirstEq]
  | c :: rest => by
    by_cases hc : c = '='
    · subst hc
      obtain ⟨p, hp⟩ := splitOnFirstEq_eq_cons rest
      rw [hp]
      simp
    · rw [show splitOnFirstEq (c :: rest) =
        (splitOnFirstEq rest).map (fun p => (c :: p.1, p.2)) from by
          simp [splitOnFirstEq, hc]]
      constructor
      · intro hm
        have hr : splitOnFirstEq rest = none := by
          cases hsr : splitOnFirstEq rest with
          | none => rfl
          | some p =>
            rw [hsr] at hm
            exact Option.noConfusion hm
        intro hmem
        rcases List.mem_cons.mp hmem with h1 | h2
        · exact hc h1.symm
        · exact (splitOnFirstEq_none_iff rest).mp hr h2
      · intro hmem
        have h2 : '=' ∉ rest := fun hr => hmem (List.mem_cons_of_mem _ hr)
        rw [(splitOnFirstEq_none_iff rest).mpr h2]
        rfl

/-- A specification without separator raises the malformed-format error. -/
theorem parseOne_no_separator (s : String) (hs : '=' ∉ s.data) :
    parseOne s = .error (.malformed s) := by
  have hn : splitOnFirstEq s.data = none := (splitOnFirstEq_none_iff s.data).mpr hs
  unfold parseOne splitOnceEq
  rw [hn]
  rfl

/-- A specification that splits is validated and never malformed. -/
theorem parseOne_split (s t v : String) (hsv : splitOnceEq s = some (t, v)) :
    parseOne s = if isValidPEP440 v then .ok (pyStrip t, pyStrip v)
      else .error (.invalidVersion v s) := by
  unfold parseOne
  rw [hsv]

/-- C6 counterexample: a specification whose tool part is empty is accepted
by `parse_targets` with the empty tool name, while the claim requires a
format error whenever one side of the separator is empty. -/
theorem claim6_counterexample : parse_targets ["=1.2"] = .ok [("", "1.2")] := by decide

/-- C6 (amended): the malformed-format error, naming the offending string,
occurs exactly when the specification contains no `=` separator (as with the
`<` and `>` operators); a string containing `=` always splits at the first
`=` or `==` into two possibly-empty parts whose version part then goes to
PEP 440 validation, so empty or extra-separator version parts surface as
version errors, an empty tool part is accepted, and the well-formed examples
parse as stated. -/
theorem claim6_amended_separator :
    (∀ s : String, '=' ∉ s.data → parse_targets [s] = .error (.malformed s)) ∧
    (∀ s t v : String, splitOnceEq s = some (t, v) →
      parse_targets [s] = .ok [(pyStrip t, pyStrip v)] ∨
      parse_targets [s] = .error (.invalidVersion v s)) ∧
    (∀ s : String, ∃ a b : String, errorMessage (.malformed s) = a ++ s ++ b) ∧
    parse_targets ["foo<0.1.2", "bar==1.1"] = .error (.malformed "foo<0.1.2") ∧
    parse_targets ["foo=0.1.2", "bar>1.1"] = .error (.malformed "bar>1.1") ∧
    parse_targets ["foo==0.1.2", "bar==1.1"] = .ok [("foo", "0.1.2"), ("bar", "1.1")] ∧
    parse_targets ["foo=0.1.2", "bar=1.1"] = .ok [("foo", "0.1.2"), ("bar", "1.1")] ∧
    parse_targets ["a=b=c"] = .error (.invalidVersion "b=c" "a=b=c") ∧
    parse_targets ["foo=="] = .error (.invalidVersion "" "foo==") ∧
    parse_targets ["=1.2"] = .ok [("", "1.2")] := by
  refine ⟨?_, ?_, ?_, by decide, by decide, by decide, by decide, by decide,
    by decide, by decide⟩
  · intro s hs
    simp [parse_targets, parseOne_no_separator s hs]
  · intro s t v hsv
    by_cases hv : isValidPEP440 v = true
    · left
      simp [parse_targets, parseOne_split s t v hsv, hv]
    · right
      simp [parse_targets, parseOne_split s t v hsv, hv]
  · intro s
    exact ⟨"The specification '",
      "' does not have the expected format <tool==version> or <tool=version>.", rfl⟩

/-- C6 witness: the amended separator characterisation applied to concrete
inputs. -/
theorem claim6_witness :
    ('=' ∉ ("foo<0.1.2" : String).data) ∧
    parse_targets ["foo<0.1.2"] = .error (.malformed "foo<0.1.2") :=
  ⟨by decide, claim6_amended_separator.1 "foo<0.1.2" (by decide)⟩

/-- C7: when a specification splits and its version part fails PEP 440
validation, `parse_targets` raises the version-format error carrying both
the version substring and the full specification, whose message names both;
in particular on the two fixture inputs. -/
theorem claim7_version_validation :
    (∀ spec t v : String, splitOnceEq spec = some (t, v) → isValidPEP440 v = false →
      parse_targets [spec] = .error (.invalidVersion v spec)) ∧
    (∀ v spec : String, ∃ a b c : String,
      errorMessage (.invalidVersion v spec) = a ++ v ++ b ++ spec ++ c) ∧
    parse_targets ["foo==0a.1.2", "bar==1.1"] =
      .error (.invalidVersion "0a.1.2" "foo==0a.1.2") ∧
    parse_targets ["foo==0.1.2", "bar==1.b1b"] =
      .error (.invalidVersion "1.b1b" "bar==1.b1b") := by
  refine ⟨?_, ?_, by decide, by decide⟩
  · intro spec t v hsv hv
    simp [parse_targets, parseOne_split spec t v hsv, hv]
  · intro v spec
    exact ⟨"Not a PEP440 version spec: '", "' in '", "'", rfl⟩

/-- C7 witness: the general statement applied to a concrete invalid version. -/
theorem claim7_witness :
    splitOnceEq "x==9q" = some ("x", "9q") ∧ isValidPEP440 "9q" = false ∧
    parse_targets ["x==9q"] = .error (.invalidVersion "9q" "x==9q") :=
  ⟨by decide, by decide,
    claim7_version_validation.1 "x==9q" "x" "9q" (by decide) (by decide)⟩

/-- C8: `parse_targets` is order-preserving with both components of every
pair stripped of surrounding whitespace, and all-or-nothing: if every entry
parses, the results appear in input order; the first failing entry aborts
the whole call with that entry's error and no partial list. -/
theorem claim8_order_and_fail_fast :
    (∀ specs : List String, (∀ s ∈ specs, ∃ p, parseOne s = .ok p) →
      parse_targets specs = .ok (specs.map fun s => (parseOne s).toOption.getD ("", ""))) ∧
    (∀ s t v : String, splitOnceEq s = some (t, v) → isValidPEP440 v = true →
      parseOne s = .ok (pyStrip t, pyStrip v)) ∧
    (∀ (front : List String) (bad : String) (rest : List String) (e : ParseError),
      (∀ s ∈ front, ∃ p, parseOne s = .ok p) → parseOne bad = .error e →
      parse_targets (front ++ bad :: rest) = .error e) := by
  refine ⟨?_, ?_, ?_⟩
  · intro specs h
    induction specs with
    | nil => rfl
    | cons s rest ih =>
      obtain ⟨p, hp⟩ := h s (List.mem_cons_self s rest)
      have hrest := ih fun x hx => h x (List.mem_cons_of_mem _ hx)
      simp [parse_targets, hp, hrest, Except.toOption]
  · intro s t v hsv hv
    rw [parseOne_split s t v hsv, if_pos hv]
  · intro front bad rest e hok hbad
    induction front with
    | nil => simp [parse_targets, hbad]
    | cons s ps ih =>
      obtain ⟨p, hp⟩ := hok s (List.mem_cons_self s ps)
      have hps := ih fun x hx => hok x (List.mem_cons_of_mem _ hx)
      simp [parse_targets, hp, hps]

/-- C8 witness: stripping and ordering on a concrete batch, and fail-fast
abortion on a concrete batch with an invalid middle entry. -/
theorem claim8_witness :
    parse_targets [" foo = 1.2 ", "bar==2.0"] =
      .ok ([" foo = 1.2 ", "bar==2.0"].map fun s => (parseOne s).toOption.getD ("", "")) ∧
    parse_targets ["ok=1.0", "nope", "later=2.0"] = .error (.malformed "nope") := by
  constructor
  · exact claim8_order_and_fail_fast.1 [" foo = 1.2 ", "bar==2.0"] (by
      intro s hs
      rcases List.mem_cons.mp hs with rfl | hs2
      · exact ⟨("foo", "1.2"), by decide⟩
      · rcases List.mem_cons.mp hs2 with rfl | hs3
        · exact ⟨("bar", "2.0"), by decide⟩
        · exact absurd hs3 (List.not_mem_nil s))
  · exact claim8_order_and_fail_fast.2.2 ["ok=1.0"] "nope" ["later=2.0"]
      (.malformed "nope") (by
        intro s hs
        rcases List.mem_cons.mp hs with rfl | hs2
        · exact ⟨("ok", "1.0"), by decide⟩
        · exact absurd hs2 (List.not_mem_nil s)) (by decide)

/-- C9 counterexample: on a transport-level failure of the GET request the
source has no exception handler, so `image_exists` propagates the error
rather than returning the false/unknown result the claim requires. -/
theorem claim9_counterexample :
    image_exists (.error .connectionFailure) = .error .connectionFailure ∧
    image_exists (.error .connectionFailure) ≠ .ok false ∧
    image_exists (.error .connectionFailure) ≠ .ok true := by decide

/-- C9 (amended): `image_exists` returns `true` exactly when the GET
response has status code 200 and `false` for every other status code, while
a transport-level failure is not caught and propagates to the caller. -/
theorem claim9_amended_response_handling :
    (∀ code : Nat, image_exists (.ok code) = .ok (code == 200)) ∧
    (∀ e : TransportError, image_exists (.error e) = .error e) :=
  ⟨fun _ => rfl, fun _ => rfl⟩

/-- C10: parsing an empty sequence of specifications succeeds with the
empty list. -/
theorem claim10_empty_parse : parse_targets [] = .ok [] := rfl
